import Mathlib

/-!
Shallow embedding of `src/resumata.py` (class `ResumeOptimizer`): the keyword
extraction, skill gating and résumé transformation pipeline. Text is modelled
as `List Char` (one entry per code point); Python dicts that the code only
iterates and queries are modelled as association lists.
-/

namespace Resumata

/-! ### Characters and text normalization (`extract_keywords`, lines 112-133) -/

/-- ASCII lower-casing of one character, as Python `str.lower` acts on the
ASCII range: `A`-`Z` (code points 65-90) shift by 32, all else is unchanged. -/
def pyLower (c : Char) : Char :=
  if 65 ≤ c.toNat ∧ c.toNat ≤ 90 then Char.ofNat (c.toNat + 32) else c

/-- Word characters of the regex class `\w` (ASCII): alphanumerics and the
underscore. -/
def isWordChar (c : Char) : Bool :=
  c.isAlphanum || c == '_'

/-- Whitespace characters of the regex class `\s` (ASCII). -/
def isSpaceChar (c : Char) : Bool :=
  c == ' ' || c == '\t' || c == '\n' || c == '\r' || c == '\x0b' || c == '\x0c'

/-- One character of `re.sub(r'[^\w\s.-]', ' ', text)`: every character outside
the class `[\w\s.-]` is replaced by a space. -/
def normalizeChar (c : Char) : Char :=
  if isWordChar c || isSpaceChar c || c == '.' || c == '-' then c else ' '

/-- The normalization performed by `extract_keywords`: lower-case the text,
then replace every character that is not a word character, whitespace, dot or
hyphen by a space. -/
def pyNormalize (t : List Char) : List Char :=
  (t.map pyLower).map normalizeChar

/-! ### The tokenizer `re.findall(r'\b[\w.-]+\b', text)` -/

/-- Characters matched by the token class `[\w.-]`. -/
def isTokChar (c : Char) : Bool :=
  isWordChar c || c == '.' || c == '-'

/-- Whether an optional character counts as a word character; `\b` treats the
outside of the text as a non-word character. -/
def wordOpt : Option Char → Bool
  | none => false
  | some c => isWordChar c

/-- Longest prefix of a maximal `[\w.-]` run that the greedy `[\w.-]+\b` can
match, together with the rest of the run. A split point inside the run is a
word boundary iff exactly one of its two neighbours is a word character; the
character following the whole run (if any) is known not to be one. `none`
means no prefix of the run ends on a word boundary. -/
def splitTok : List Char → Option (List Char × List Char)
  | [] => none
  | [c] => if isWordChar c then some ([c], []) else none
  | c :: c' :: rest =>
    match splitTok (c' :: rest) with
    | some (tk, left) => some (c :: tk, left)
    | none =>
      if isWordChar c ≠ isWordChar c' then some ([c], c' :: rest) else none

/-- The scan of `re.findall(r'\b[\w.-]+\b', text)`: `prev` is the character
just before the current position, `fuel` bounds the number of scan steps (one
unit per position advanced, so `text.length` units always suffice). At each
position a match is attempted; on success the scan resumes after the match,
on failure it advances one character. -/
def tokenizeAux : Nat → Option Char → List Char → List (List Char)
  | 0, _, _ => []
  | _ + 1, _, [] => []
  | fuel + 1, prev, c :: rest =>
    if isTokChar c && (wordOpt prev != isWordChar c) then
      match splitTok ((c :: rest).takeWhile isTokChar) with
      | some (tk, left) =>
        tk :: tokenizeAux fuel (some (tk.getLastD c))
          (left ++ (c :: rest).dropWhile isTokChar)
      | none => tokenizeAux fuel (some c) rest
    else tokenizeAux fuel (some c) rest

/-- All tokens of the normalized job text. -/
def tokenize (s : List Char) : List (List Char) :=
  tokenizeAux s.length none s

/-- The scan of `re.findall(rf'\b{re.escape(keyword)}\b', text)` for one fixed
multi-word keyword: counts the non-overlapping occurrences of the literal
phrase whose two ends fall on word boundaries, scanning left to right. -/
def countPhraseAux (phrase : List Char) : Nat → Option Char → List Char → Nat
  | 0, _, _ => 0
  | _ + 1, _, [] => 0
  | fuel + 1, prev, c :: rest =>
    if phrase.isPrefixOf (c :: rest)
        && (wordOpt prev != isWordChar c)
        && (isWordChar (phrase.getLastD c)
            != wordOpt ((c :: rest).drop phrase.length).head?) then
      countPhraseAux phrase fuel (some (phrase.getLastD c))
        ((c :: rest).drop phrase.length) + 1
    else countPhraseAux phrase fuel (some c) rest

/-! ### The vocabulary and `extract_keywords` -/

/-- The fixed technology vocabulary `tech_keywords` (source lines 13-37),
in source order. -/
def techKeywords : List (List Char) :=
  ["python".data, "java".data, "javascript".data, "typescript".data, "go".data,
   "rust".data, "c++".data, "c#".data, "kotlin".data, "scala".data, "ruby".data,
   "php".data,
   "react".data, "vue".data, "angular".data, "node.js".data, "nodejs".data,
   "express".data, "django".data, "flask".data, "spring".data,
   "springboot".data,
   "aws".data, "azure".data, "gcp".data, "google cloud".data,
   "kubernetes".data, "k8s".data, "docker".data, "containers".data,
   "terraform".data, "ansible".data,
   "mysql".data, "postgresql".data, "mongodb".data, "redis".data,
   "elasticsearch".data, "dynamodb".data, "cassandra".data, "sqlite".data,
   "jenkins".data, "github actions".data, "gitlab ci".data, "ci/cd".data,
   "cicd".data, "devops".data, "monitoring".data, "prometheus".data,
   "grafana".data,
   "bazel".data, "gradle".data, "maven".data, "webpack".data, "git".data,
   "jira".data, "confluence".data,
   "agile".data, "scrum".data, "microservices".data, "rest api".data,
   "graphql".data, "tdd".data, "unit testing".data,
   "machine learning".data, "ai".data, "tensorflow".data, "pytorch".data,
   "data science".data, "nlp".data, "computer vision".data]

/-- Occurrences of one vocabulary term in the normalized text: a term with an
internal space is counted as whole-phrase regex matches, a single-word term as
the number of equal tokens (`words.count(keyword)`). -/
def countKeyword (keyword text : List Char) : Nat :=
  if keyword.contains ' ' then countPhraseAux keyword text.length none text
  else (tokenize text).count keyword

/-- `ResumeOptimizer.extract_keywords` (lines 112-133): normalize the job text,
count every vocabulary term, and keep the terms with positive count. -/
def extract_keywords (job_text : List Char) : List (List Char × Nat) :=
  let t := pyNormalize job_text
  techKeywords.filterMap fun k =>
    let c := countKeyword k t
    if c > 0 then some (k, c) else none

/-- The claim's reading of the normalization, word for word: lower-case, then
replace every character outside alphanumerics, whitespace, dot and hyphen by a
space (so, unlike `[^\w\s.-]`, the underscore is also replaced). Used only to
compare the claimed normalization with the one in the source. -/
def specNormalizeChar (c : Char) : Char :=
  if c.isAlphanum || isSpaceChar c || c == '.' || c == '-' then c else ' '

/-- Whole-text version of `specNormalizeChar`, following the claim's words. -/
def specNormalize (t : List Char) : List Char :=
  (t.map pyLower).map specNormalizeChar

/-! ### Skill registry and validation (`validate_keyword`, lines 57-73) -/

/-- The four skill levels, ordered `learning < familiar < proficient <
expert` (`skill_hierarchy`, line 66). -/
inductive SkillLevel where
  | learning
  | familiar
  | proficient
  | expert
deriving DecidableEq, Fintype, Repr

/-- Index of a level in `skill_hierarchy = ['learning', 'familiar',
'proficient', 'expert']`. -/
def levelIndex : SkillLevel → Nat
  | .learning => 0
  | .familiar => 1
  | .proficient => 2
  | .expert => 3

/-- `skill_hierarchy` as a list, in source order. -/
def skillHierarchy : List SkillLevel :=
  [.learning, .familiar, .proficient, .expert]

/-- The skills configuration: one list of skill names per level, plus the
`never_add` exclusion list (`load_validated_skills`, lines 49-55). -/
structure SkillRegistry where
  expert : List (List Char)
  proficient : List (List Char)
  familiar : List (List Char)
  learning : List (List Char)
  never_add : List (List Char)
deriving DecidableEq, Repr

/-- `self.validated_skills.get(level, [])` for the four level keys. -/
def registryAt (reg : SkillRegistry) : SkillLevel → List (List Char)
  | .learning => reg.learning
  | .familiar => reg.familiar
  | .proficient => reg.proficient
  | .expert => reg.expert

/-- `keyword_lower in [skill.lower() for skill in
self.validated_skills.get(level, [])]`. -/
def registeredAt (reg : SkillRegistry) (level : SkillLevel)
    (keyword : List Char) : Bool :=
  decide (keyword.map pyLower ∈ (registryAt reg level).map (fun s => s.map pyLower))

/-- `ResumeOptimizer.validate_keyword` (lines 57-73): `never_add` membership
(case-insensitive) rejects outright; otherwise the keyword must appear at the
required level or any higher one. -/
def validate_keyword (reg : SkillRegistry) (keyword : List Char)
    (skill_level : SkillLevel) : Bool :=
  if keyword.map pyLower ∈ reg.never_add.map (fun s => s.map pyLower) then false
  else
    (skillHierarchy.drop (levelIndex skill_level)).any fun level =>
      registeredAt reg level keyword

/-- `ResumeOptimizer.filter_safe_keywords` (lines 75-92): keep the keywords
that validate at minimum level `familiar` (the reporting of rejected keywords
is console output only). -/
def filter_safe_keywords (reg : SkillRegistry)
    (keywords : List (List Char × Nat)) : List (List Char × Nat) :=
  keywords.filter fun p => validate_keyword reg p.1 .familiar

/-- The level-tag strings returned by `get_skill_level`. -/
def levelName : SkillLevel → String
  | .learning => "learning"
  | .familiar => "familiar"
  | .proficient => "proficient"
  | .expert => "expert"

/-- `ResumeOptimizer.get_skill_level` (lines 253-259): scan `expert →
proficient → familiar → learning` and return the first level at which the
keyword is registered, or `"unknown"`. -/
def get_skill_level (reg : SkillRegistry) (keyword : List Char) : String :=
  match ([.expert, .proficient, .familiar, .learning] : List SkillLevel).find?
      (fun level => registeredAt reg level keyword) with
  | some level => levelName level
  | none => "unknown"

/-! ### Technology sections (`reorder_technologies`, `add_relevant_skills`) -/

/-- A `details` entry of a technology item: either a single string or a list
of strings. -/
inductive Details where
  | single : List Char → Details
  | listed : List (List Char) → Details
deriving DecidableEq, Repr

/-- One item of the technologies section: a label and an optional `details`
entry (`tech_item.get('details', [])` defaults to the empty list). -/
structure TechItem where
  label : String
  details? : Option Details
deriving DecidableEq, Repr

/-- The detail strings of an item, a single string normalized to a one-element
list (lines 142-144 and 189-191). -/
def detailsList : TechItem → List (List Char)
  | ⟨_, none⟩ => []
  | ⟨_, some (.single s)⟩ => [s]
  | ⟨_, some (.listed l)⟩ => l

/-- Python's substring operator `needle in haystack`: `needle` occurs as a
contiguous run inside `haystack`. -/
def isSubstring (needle : List Char) : List Char → Bool
  | [] => needle.isEmpty
  | c :: rest => needle.isPrefixOf (c :: rest) || isSubstring needle rest

/-- The inner `keyword_score` of `reorder_technologies` (lines 140-153): for
each detail string, every matched keyword occurring verbatim as a substring of
the lower-cased detail contributes `count * 10`. -/
def keyword_score (matched_keywords : List (List Char × Nat))
    (tech_item : TechItem) : Nat :=
  (detailsList tech_item).foldl
    (fun score detail =>
      matched_keywords.foldl
        (fun score p =>
          if isSubstring p.1 (detail.map pyLower) then score + p.2 * 10 else score)
        score)
    0

/-- Insert an element into a list sorted by `score` descending, after every
element of greater-or-equal score that is already there. -/
def insertDescBy {α : Type} (score : α → Nat) (x : α) : List α → List α
  | [] => [x]
  | y :: ys =>
    if score y ≤ score x then x :: y :: ys else y :: insertDescBy score x ys

/-- Stable sort by `score` descending, as Python's
`sorted(·, key=score, reverse=True)`: elements of equal score keep their
original relative order. -/
def sortDescBy {α : Type} (score : α → Nat) : List α → List α
  | [] => []
  | x :: xs => insertDescBy score x (sortDescBy score xs)

/-- `ResumeOptimizer.reorder_technologies` (lines 135-156): stable sort of the
section items by `keyword_score` descending. -/
def reorder_technologies (tech_section : List TechItem)
    (matched_keywords : List (List Char × Nat)) : List TechItem :=
  if tech_section = [] then tech_section
  else sortDescBy (keyword_score matched_keywords) tech_section

/-- The claim's reading of the item score: a keyword matches when it occurs
case-insensitively in the detail, i.e. the keyword itself is also lower-cased
before the substring test. Used only to compare the claimed scoring with the
one in the source. -/
def specKeywordScore (matched_keywords : List (List Char × Nat))
    (tech_item : TechItem) : Nat :=
  (detailsList tech_item).foldl
    (fun score detail =>
      matched_keywords.foldl
        (fun score p =>
          if isSubstring (p.1.map pyLower) (detail.map pyLower) then
            score + p.2 * 10
          else score)
        score)
    0

/-- Reordering as the claim describes it: stable descending sort by the
case-insensitive score `specKeywordScore`. -/
def specReorderTechnologies (tech_section : List TechItem)
    (matched_keywords : List (List Char × Nat)) : List TechItem :=
  if tech_section = [] then tech_section
  else sortDescBy (specKeywordScore matched_keywords) tech_section

/-- `ResumeOptimizer.enhance_summary` (lines 158-176): of the first three
keywords, those not already occurring in the lower-cased summary are appended,
replacing a trailing period by `", including expertise in …."` or otherwise
appending `" Experienced with …."`. -/
def enhance_summary (summary : List Char) (top_keywords : List (List Char)) :
    List Char :=
  let summary_lower := summary.map pyLower
  let keywords_to_add :=
    (top_keywords.take 3).filter fun k => !(isSubstring k summary_lower)
  if keywords_to_add = [] then summary
  else
    let keyword_phrase := List.intercalate ", ".data keywords_to_add
    if summary.getLast? = some '.' then
      summary.dropLast ++ ", including expertise in ".data
        ++ keyword_phrase ++ ".".data
    else
      summary ++ " Experienced with ".data ++ keyword_phrase ++ ".".data

/-- The label of the injected section. -/
def jobRelevantLabel : String := "Job-Relevant Technologies"

/-- `ResumeOptimizer.add_relevant_skills` (lines 178-205): rank the matched
keywords by count descending, take the top 8, drop those already present
(verbatim) among the lower-cased existing detail strings, and when any remain
prepend a new section carrying up to 6 of them. -/
def add_relevant_skills (tech_section : List TechItem)
    (matched_keywords : List (List Char × Nat)) : List TechItem :=
  if matched_keywords = [] then tech_section
  else
    let top_keywords := (sortDescBy (fun p => p.2) matched_keywords).take 8
    let existing_keywords :=
      (tech_section.flatMap detailsList).map fun d => d.map pyLower
    let new_keywords :=
      (top_keywords.map (fun p => p.1)).filter fun kw =>
        !(existing_keywords.contains kw)
    if new_keywords ≠ [] then
      ⟨jobRelevantLabel, some (.listed (new_keywords.take 6))⟩ :: tech_section
    else tech_section

/-! ### The résumé document and `optimize_resume` (lines 207-251) -/

/-- The `cv.sections` subtree: the `technologies` list, when present, plus the
other entries, which the code never touches, of an opaque payload type. -/
structure Sections (α : Type) where
  technologies? : Option (List TechItem)
  rest : List (String × α)
deriving DecidableEq, Repr

/-- The `cv` subtree: optional `summary` and `sections`, plus untouched other
entries. -/
structure Cv (α : Type) where
  summary? : Option (List Char)
  sections? : Option (Sections α)
  rest : List (String × α)
deriving DecidableEq, Repr

/-- The résumé document: optional `cv` subtree plus untouched other top-level
entries. -/
structure Resume (α : Type) where
  cv? : Option (Cv α)
  rest : List (String × α)
deriving DecidableEq, Repr

/-- `ResumeOptimizer.optimize_resume` (lines 207-251): no-op for an empty
keyword map or when no keyword is safe; otherwise enhance the summary with the
proficient-or-higher keywords ranked by count, then reorder the technologies
and prepend the job-relevant section. -/
def optimize_resume {α : Type} (reg : SkillRegistry) (resume_data : Resume α)
    (job_keywords : List (List Char × Nat)) : Resume α :=
  if job_keywords = [] then resume_data
  else
    let safe_keywords := filter_safe_keywords reg job_keywords
    if safe_keywords = [] then resume_data
    else
      let r1 :=
        match resume_data.cv? with
        | none => resume_data
        | some cv =>
          match cv.summary? with
          | none => resume_data
          | some s =>
            let expert_keywords :=
              safe_keywords.filter fun p : List Char × Nat =>
                validate_keyword reg p.1 .proficient
            let top_kw_list :=
              (sortDescBy (fun p : List Char × Nat => p.2) expert_keywords).map
                fun p : List Char × Nat => p.1
            { resume_data with
              cv? := some { cv with summary? := some (enhance_summary s top_kw_list) } }
      match r1.cv? with
      | none => r1
      | some cv =>
        match cv.sections? with
        | none => r1
        | some secs =>
          match secs.technologies? with
          | none => r1
          | some tech =>
            let tech1 := reorder_technologies tech safe_keywords
            let relevant_keywords :=
              safe_keywords.filter fun p : List Char × Nat =>
                validate_keyword reg p.1 .familiar
            let tech2 := add_relevant_skills tech1 relevant_keywords
            { r1 with
              cv? := some { cv with
                sections? := some { secs with technologies? := some tech2 } } }

/-- Erase the two fields `optimize_resume` may rewrite (`cv.summary` and
`cv.sections.technologies`), leaving everything else. -/
def eraseOptimized {α : Type} (r : Resume α) : Resume α :=
  { r with
    cv? := r.cv?.map fun cv =>
      { cv with
        summary? := none
        sections? := cv.sections?.map fun secs =>
          { secs with technologies? := none } } }

/-- Whether the document has a `cv.summary` path. -/
def summaryPresent {α : Type} (r : Resume α) : Bool :=
  match r.cv? with
  | none => false
  | some cv => cv.summary?.isSome

/-- Whether the document has a `cv.sections.technologies` path. -/
def techPresent {α : Type} (r : Resume α) : Bool :=
  match r.cv? with
  | none => false
  | some cv =>
    match cv.sections? with
    | none => false
    | some secs => secs.technologies?.isSome

/-! ### Helper lemmas -/

theorem toNat_ofNat_of_small {n : Nat} (h : n < 55296) :
    (Char.ofNat n).toNat = n := by
  have hv : n.isValidChar := Or.inl h
  unfold Char.ofNat
  rw [dif_pos hv]
  rfl

theorem pyLower_pyLower (c : Char) : pyLower (pyLower c) = pyLower c := by
  by_cases h : 65 ≤ c.toNat ∧ c.toNat ≤ 90
  · have ht : (Char.ofNat (c.toNat + 32)).toNat = c.toNat + 32 :=
      toNat_ofNat_of_small (by omega)
    simp only [pyLower, if_pos h]
    rw [if_neg]
    rw [ht]
    omega
  · simp only [pyLower, if_neg h]

theorem normalizeChar_pyLower_idem (c : Char) :
    normalizeChar (pyLower (normalizeChar (pyLower c)))
      = normalizeChar (pyLower c) := by
  by_cases h : (isWordChar (pyLower c) || isSpaceChar (pyLower c)
      || pyLower c == '.' || pyLower c == '-') = true
  · have h1 : normalizeChar (pyLower c) = pyLower c := by
      simp only [normalizeChar, if_pos h]
    rw [h1, pyLower_pyLower, h1]
  · have h1 : normalizeChar (pyLower c) = ' ' := by
      simp only [normalizeChar, if_neg h]
    rw [h1]
    decide

theorem pyNormalize_idem (t : List Char) :
    pyNormalize (pyNormalize t) = pyNormalize t := by
  induction t with
  | nil => rfl
  | cons c cs ih =>
    simp only [pyNormalize, List.map_cons] at ih ⊢
    rw [normalizeChar_pyLower_idem, ih]

theorem insertDescBy_perm {α : Type} (score : α → Nat) (x : α) (l : List α) :
    List.Perm (insertDescBy score x l) (x :: l) := by
  induction l with
  | nil => exact List.Perm.refl _
  | cons y ys ih =>
    by_cases h : score y ≤ score x
    · simp only [insertDescBy, if_pos h]
      exact List.Perm.refl _
    · simp only [insertDescBy, if_neg h]
      exact (List.Perm.cons y ih).trans (List.Perm.swap x y ys)

theorem sortDescBy_perm {α : Type} (score : α → Nat) (l : List α) :
    List.Perm (sortDescBy score l) l := by
  induction l with
  | nil => exact List.Perm.refl _
  | cons x xs ih =>
    exact (insertDescBy_perm score x _).trans (List.Perm.cons x ih)

theorem insertDescBy_eq_append {α : Type} (score : α → Nat) (x : α)
    (l : List α) :
    ∃ l₁ l₂, l = l₁ ++ l₂ ∧ insertDescBy score x l = l₁ ++ x :: l₂ ∧
      ∀ y ∈ l₁, score x < score y := by
  induction l with
  | nil => exact ⟨[], [], rfl, rfl, by simp⟩
  | cons y ys ih =>
    by_cases h : score y ≤ score x
    · refine ⟨[], y :: ys, rfl, ?_, by simp⟩
      simp only [insertDescBy, if_pos h, List.nil_append]
    · obtain ⟨l₁, l₂, he, hi, hs⟩ := ih
      refine ⟨y :: l₁, l₂, by rw [List.cons_append, ← he], ?_, ?_⟩
      · simp only [insertDescBy, if_neg h, hi, List.cons_append]
      · intro z hz
        rcases List.mem_cons.mp hz with rfl | hz
        · omega
        · exact hs z hz

theorem sublist_insertDescBy {α : Type} (score : α → Nat) (x : α)
    (l : List α) : l.Sublist (insertDescBy score x l) := by
  obtain ⟨l₁, l₂, he, hi, -⟩ := insertDescBy_eq_append score x l
  rw [hi, he]
  exact (List.sublist_cons_self x l₂).append_left l₁

theorem insertDescBy_sorted {α : Type} (score : α → Nat) (x : α)
    (l : List α) (h : l.Pairwise fun a b => score b ≤ score a) :
    (insertDescBy score x l).Pairwise fun a b => score b ≤ score a := by
  induction l with
  | nil => simp [insertDescBy]
  | cons y ys ih =>
    rw [List.pairwise_cons] at h
    by_cases hc : score y ≤ score x
    · simp only [insertDescBy, if_pos hc]
      refine List.Pairwise.cons ?_ (List.Pairwise.cons h.1 h.2)
      intro b hb
      rcases List.mem_cons.mp hb with rfl | hb
      · exact hc
      · exact le_trans (h.1 b hb) hc
    · simp only [insertDescBy, if_neg hc]
      refine List.Pairwise.cons ?_ (ih h.2)
      intro b hb
      have hb' := (insertDescBy_perm score x ys).mem_iff.mp hb
      rcases List.mem_cons.mp hb' with rfl | hb'
      · omega
      · exact h.1 b hb'

theorem sortDescBy_sorted {α : Type} (score : α → Nat) (l : List α) :
    (sortDescBy score l).Pairwise fun a b => score b ≤ score a := by
  induction l with
  | nil => simp [sortDescBy]
  | cons x xs ih => exact insertDescBy_sorted score x _ ih

theorem sortDescBy_stable {α : Type} (score : α → Nat) (l l' : List α)
    (hsub : l'.Sublist l) (heq : l'.Pairwise fun a b => score a = score b) :
    l'.Sublist (sortDescBy score l) := by
  induction l generalizing l' with
  | nil =>
    rw [List.sublist_nil] at hsub
    simp [hsub, sortDescBy]
  | cons x xs ih =>
    rcases List.sublist_cons_iff.mp hsub with h | ⟨r, rfl, hr⟩
    · exact (ih l' h heq).trans (sublist_insertDescBy score x _)
    · rw [List.pairwise_cons] at heq
      have hrs : r.Sublist (sortDescBy score xs) := ih r hr heq.2
      obtain ⟨l₁, l₂, he, hi, hgt⟩ :=
        insertDescBy_eq_append score x (sortDescBy score xs)
      rw [he] at hrs
      obtain ⟨r₁, r₂, hre, hr₁, hr₂⟩ := List.sublist_append_iff.mp hrs
      have hr₁nil : r₁ = [] := by
        cases r₁ with
        | nil => rfl
        | cons a as =>
          exfalso
          have ha : a ∈ l₁ := hr₁.subset (List.mem_cons_self a as)
          have h1 : score x < score a := hgt a ha
          have h2 : score x = score a := by
            refine heq.1 a ?_
            rw [hre]
            exact List.mem_append_left _ (List.mem_cons_self a as)
          omega
      have hre2 : r = r₂ := by rw [hre, hr₁nil, List.nil_append]
      have hx : sortDescBy score (x :: xs) = l₁ ++ x :: l₂ := by
        simp only [sortDescBy]
        exact hi
      rw [hre2, hx]
      exact (hr₂.cons₂ x).trans (List.sublist_append_right l₁ (x :: l₂))

theorem splitTok_eq_append :
    ∀ (l tk left : List Char), splitTok l = some (tk, left) → l = tk ++ left
  | [], tk, left, h => by simp [splitTok] at h
  | [c], tk, left, h => by
    by_cases hw : isWordChar c = true
    · rw [splitTok, if_pos hw] at h
      simp only [Option.some.injEq, Prod.mk.injEq] at h
      obtain ⟨rfl, rfl⟩ := h
      rfl
    · rw [splitTok, if_neg hw] at h
      cases h
  | c :: c' :: rest, tk, left, h => by
    rw [splitTok] at h
    cases hm : splitTok (c' :: rest) with
    | some p =>
      obtain ⟨tk', left'⟩ := p
      rw [hm] at h
      simp only [Option.some.injEq, Prod.mk.injEq] at h
      obtain ⟨rfl, rfl⟩ := h
      have := splitTok_eq_append (c' :: rest) tk' left' hm
      rw [List.cons_append, ← this]
    | none =>
      rw [hm] at h
      by_cases hw : isWordChar c ≠ isWordChar c'
      · rw [if_pos hw] at h
        simp only [Option.some.injEq, Prod.mk.injEq] at h
        obtain ⟨rfl, rfl⟩ := h
        rfl
      · rw [if_neg hw] at h
        cases h

theorem tokenizeAux_tokChar (fuel : Nat) :
    ∀ (prev : Option Char) (s tk : List Char),
      tk ∈ tokenizeAux fuel prev s → tk.all isTokChar = true := by
  induction fuel with
  | zero => intro _ _ _ h; simp [tokenizeAux] at h
  | succ n ih =>
    intro prev s tk h
    cases s with
    | nil => simp [tokenizeAux] at h
    | cons c rest =>
      rw [tokenizeAux] at h
      split at h
      · split at h
        · rename_i tk' left' hm
          rcases List.mem_cons.mp h with rfl | h
          · have hrun := splitTok_eq_append _ _ _ hm
            rw [List.all_eq_true]
            intro a ha
            have hat : a ∈ (c :: rest).takeWhile isTokChar := by
              rw [hrun]
              exact List.mem_append_left _ ha
            exact List.mem_takeWhile_imp hat
          · exact ih _ _ _ h
        · exact ih _ _ _ h
      · exact ih _ _ _ h

theorem mem_tokenize_tokChar (s tk : List Char) (h : tk ∈ tokenize s) :
    tk.all isTokChar = true :=
  tokenizeAux_tokChar _ _ _ _ h

/-! ### Claim theorems -/

/-- Claim C1: for every skill registry and every keyword whose lower-cased
form appears (case-insensitively) in the `never_add` list, `validate_keyword`
returns `false` for every minimum level, even when the keyword also appears in
the `expert` list or at any other level. -/
theorem validate_keyword_never_add_wins (reg : SkillRegistry)
    (keyword : List Char) (minLevel : SkillLevel)
    (h : keyword.map pyLower ∈ reg.never_add.map (fun s => s.map pyLower)) :
    validate_keyword reg keyword minLevel = false := by
  simp only [validate_keyword, if_pos h]

/-- Registry of scenario B: `react` in both `never_add` and `expert`. -/
def scenarioBRegistry : SkillRegistry :=
  ⟨["react".data], [], [], [], ["react".data]⟩

/-- Witness for C1 (scenario B): with `react` in both `never_add` and
`expert`, `validate_keyword "react" learning` is `false`. -/
theorem validate_keyword_never_add_wins_witness :
    "react".data.map pyLower ∈
        scenarioBRegistry.never_add.map (fun s => s.map pyLower)
      ∧ validate_keyword scenarioBRegistry "react".data .learning = false :=
  ⟨by decide,
    validate_keyword_never_add_wins scenarioBRegistry "react".data .learning
      (by decide)⟩

/-- Claim C6: for a keyword not in `never_add`, validation at minimum level
`expert` implies validation at minimum levels `proficient`, `familiar` and
`learning`. -/
theorem validate_keyword_monotone (reg : SkillRegistry) (keyword : List Char)
    (hna : keyword.map pyLower ∉ reg.never_add.map (fun s => s.map pyLower))
    (h : validate_keyword reg keyword .expert = true) :
    validate_keyword reg keyword .proficient = true
      ∧ validate_keyword reg keyword .familiar = true
      ∧ validate_keyword reg keyword .learning = true := by
  have hreg : registeredAt reg .expert keyword = true := by
    simp only [validate_keyword, if_neg hna] at h
    simpa [skillHierarchy, levelIndex] using h
  simp only [validate_keyword, if_neg hna]
  simp [skillHierarchy, levelIndex, hreg]

/-- Registry for the C6 witness: `rust` declared at level `expert` only. -/
def expertOnlyRegistry : SkillRegistry :=
  ⟨["rust".data], [], [], [], []⟩

/-- Witness for C6: `rust` validates at `expert`, hence at the three lower
minimum levels. -/
theorem validate_keyword_monotone_witness :
    validate_keyword expertOnlyRegistry "rust".data .proficient = true
      ∧ validate_keyword expertOnlyRegistry "rust".data .familiar = true
      ∧ validate_keyword expertOnlyRegistry "rust".data .learning = true :=
  validate_keyword_monotone expertOnlyRegistry "rust".data (by decide)
    (by decide)

/-- Claim C9: `get_skill_level` returns the name of the first level, scanning
`expert → proficient → familiar → learning`, at which the keyword is
registered (comparing lower-cased forms) — so a keyword registered at several
levels is reported at the highest — and `"unknown"` when it is registered at
no level. -/
theorem get_skill_level_highest (reg : SkillRegistry) (keyword : List Char) :
    ((∀ level, registeredAt reg level keyword = false) →
        get_skill_level reg keyword = "unknown")
      ∧ ∀ level, registeredAt reg level keyword = true →
          (∀ higher, levelIndex level < levelIndex higher →
            registeredAt reg higher keyword = false) →
          get_skill_level reg keyword = levelName level := by
  constructor
  · intro h
    have hnone : ([.expert, .proficient, .familiar, .learning] :
        List SkillLevel).find? (fun level => registeredAt reg level keyword)
          = none :=
      List.find?_eq_none.mpr fun x _ => by simp [h x]
    rw [get_skill_level, hnone]
  · intro level hreg hmax
    cases level with
    | expert =>
      rw [get_skill_level]
      simp [hreg]
    | proficient =>
      have he := hmax .expert (by decide)
      rw [get_skill_level]
      simp [he, hreg]
    | familiar =>
      have he := hmax .expert (by decide)
      have hp := hmax .proficient (by decide)
      rw [get_skill_level]
      simp [he, hp, hreg]
    | learning =>
      have he := hmax .expert (by decide)
      have hp := hmax .proficient (by decide)
      have hf := hmax .familiar (by decide)
      rw [get_skill_level]
      simp [he, hp, hf, hreg]

/-- Registry for the C9 witness: `go` registered at both `familiar` and
`learning`. -/
def multiLevelRegistry : SkillRegistry :=
  ⟨[], [], ["go".data], ["go".data], []⟩

/-- Witness for C9: registered at both `familiar` and `learning`, `go` is
reported at the higher of the two. -/
theorem get_skill_level_highest_witness :
    get_skill_level multiLevelRegistry "go".data = "familiar" :=
  (get_skill_level_highest multiLevelRegistry "go".data).2 .familiar
    (by decide) (by decide)

/-- A single-word term whose characters are not all token characters is never
counted: every token of `re.findall(r'\b[\w.-]+\b', ·)` consists of `[\w.-]`
characters only. -/
theorem countKeyword_eq_zero_of_bad (k t : List Char)
    (hns : k.contains ' ' = false) (hbad : k.all isTokChar = false) :
    countKeyword k t = 0 := by
  rw [countKeyword, if_neg (by rw [hns]; decide)]
  by_contra h
  have hpos : 0 < (tokenize t).count k := Nat.pos_of_ne_zero h
  have hmem : k ∈ tokenize t := List.count_pos_iff.mp hpos
  rw [mem_tokenize_tokChar _ _ hmem] at hbad
  cases hbad

/-- Claim C2 counterexample: the claim's normalization replaces every
character outside alphanumerics, whitespace, dot and hyphen — including the
underscore, which the code's `[^\w\s.-]` keeps. On `"go_"` the code tokenizes
the whole string as one `[\w.-]+` token and finds nothing, while the claimed
normalization splits off `go`. -/
theorem extract_keywords_claim_normalization_counterexample :
    extract_keywords "go_".data ≠ extract_keywords (specNormalize "go_".data)
      ∧ extract_keywords "go_".data = []
      ∧ extract_keywords (specNormalize "go_".data) = [("go".data, 1)] := by
  refine ⟨?_, by decide, by decide⟩
  decide

/-- Claim C2 (amended): `extract_keywords` normalizes by lower-casing and
replacing every character that is not a word character (alphanumeric or
underscore), whitespace, dot, or hyphen with a space before tokenizing and
counting; equivalently, for every text, `extract_keywords text` equals
`extract_keywords` applied to that normalization of the text. -/
theorem extract_keywords_word_normalization (t : List Char) :
    extract_keywords t = extract_keywords (pyNormalize t) := by
  simp only [extract_keywords]
  rw [pyNormalize_idem]

/-- Claim C10: although `c++`, `c#` and `ci/cd` are members of the fixed
vocabulary, `extract_keywords` never emits them: normalization replaces `+`,
`#` and `/` by spaces, and these space-free terms are matched against
`[\w.-]+` tokens, which can never equal them. -/
theorem extract_keywords_unmatchable_terms (t : List Char) :
    ("c++".data ∈ techKeywords ∧ "c#".data ∈ techKeywords
        ∧ "ci/cd".data ∈ techKeywords)
      ∧ ∀ p ∈ extract_keywords t,
          p.1 ≠ "c++".data ∧ p.1 ≠ "c#".data ∧ p.1 ≠ "ci/cd".data := by
  refine ⟨by decide, ?_⟩
  intro p hp
  simp only [extract_keywords] at hp
  rw [List.mem_filterMap] at hp
  obtain ⟨k, hk, hsome⟩ := hp
  by_cases hc : countKeyword k (pyNormalize t) > 0
  · rw [if_pos hc, Option.some.injEq] at hsome
    have hp1 : p.1 = k := by rw [← hsome]
    rw [hp1]
    refine ⟨?_, ?_, ?_⟩ <;> intro heq <;> rw [heq] at hc
    · have h0 := countKeyword_eq_zero_of_bad "c++".data (pyNormalize t)
        (by decide) (by decide)
      omega
    · have h0 := countKeyword_eq_zero_of_bad "c#".data (pyNormalize t)
        (by decide) (by decide)
      omega
    · have h0 := countKeyword_eq_zero_of_bad "ci/cd".data (pyNormalize t)
        (by decide) (by decide)
      omega
  · rw [if_neg hc] at hsome
    cases hsome

/-- Witness for C10: on the job text `python` the extractor emits the pair
`(python, 1)`, which is none of the three unmatchable terms. -/
theorem extract_keywords_unmatchable_terms_witness :
    ("python".data, 1) ∈ extract_keywords "python".data
      ∧ ("python".data ≠ "c++".data ∧ "python".data ≠ "c#".data
          ∧ "python".data ≠ "ci/cd".data) :=
  ⟨by decide,
    (extract_keywords_unmatchable_terms "python".data).2 ("python".data, 1)
      (by decide)⟩

/-- Claim C5: `enhance_summary` considers only the first three keywords and
drops those already occurring as substrings of the lower-cased summary; when
none remain the summary is returned unchanged, otherwise a trailing period is
rewritten into `", including expertise in …."` and a summary without one gets
`" Experienced with …."` appended. The last conjunct is scenario E. -/
theorem enhance_summary_spec (summary : List Char)
    (top_keywords : List (List Char)) :
    ((top_keywords.take 3).filter
        (fun k => !(isSubstring k (summary.map pyLower))) = [] →
      enhance_summary summary top_keywords = summary)
    ∧ ((top_keywords.take 3).filter
          (fun k => !(isSubstring k (summary.map pyLower))) ≠ [] →
        (summary.getLast? = some '.' →
          enhance_summary summary top_keywords
            = summary.dropLast ++ ", including expertise in ".data
              ++ List.intercalate ", ".data
                ((top_keywords.take 3).filter
                  (fun k => !(isSubstring k (summary.map pyLower))))
              ++ ".".data)
        ∧ (summary.getLast? ≠ some '.' →
          enhance_summary summary top_keywords
            = summary ++ " Experienced with ".data
              ++ List.intercalate ", ".data
                ((top_keywords.take 3).filter
                  (fun k => !(isSubstring k (summary.map pyLower))))
              ++ ".".data))
    ∧ enhance_summary "Skilled engineer.".data ["rust".data, "go".data]
        = "Skilled engineer, including expertise in rust, go.".data := by
  refine ⟨fun h0 => ?_, fun hne => ⟨fun hdot => ?_, fun hnodot => ?_⟩,
    by decide⟩
  · simp only [enhance_summary]
    rw [if_pos h0]
  · simp only [enhance_summary]
    rw [if_neg hne, if_pos hdot]
  · simp only [enhance_summary]
    rw [if_neg hne, if_neg hnodot]

/-- Witness for C5 (scenario E): neither `rust` nor `go` occurs in
`"Skilled engineer."`, so its trailing period is replaced by the expertise
clause. -/
theorem enhance_summary_spec_witness :
    enhance_summary "Skilled engineer.".data ["rust".data, "go".data]
      = "Skilled engineer, including expertise in rust, go.".data := by
  have h := ((enhance_summary_spec "Skilled engineer.".data
      ["rust".data, "go".data]).2.1 (by decide)).1 (by decide)
  exact h.trans (by decide)

/-- The default empty skills configuration. -/
def emptyRegistry : SkillRegistry := ⟨[], [], [], [], []⟩

/-- A sample résumé document used by concrete witnesses. -/
def sampleResume : Resume Unit :=
  ⟨some ⟨some "Engineer.".data,
      some ⟨some [⟨"A", some (.listed ["python".data])⟩], [("other", ())]⟩,
      [("name", ())]⟩,
    [("design", ())]⟩

/-- Claim C4: `optimize_resume` returns the résumé unchanged when the keyword
map is empty, and likewise when no keyword validates at minimum level
`familiar` (so `filter_safe_keywords` rejects everything); on the empty job
text `extract_keywords` returns the empty mapping, so `optimize_resume` is
then a no-op as well. -/
theorem optimize_resume_noop {α : Type} (reg : SkillRegistry)
    (resume_data : Resume α) (job_keywords : List (List Char × Nat)) :
    (job_keywords = [] →
        optimize_resume reg resume_data job_keywords = resume_data)
      ∧ ((∀ p ∈ job_keywords, validate_keyword reg p.1 .familiar = false) →
          optimize_resume reg resume_data job_keywords = resume_data)
      ∧ extract_keywords [] = []
      ∧ optimize_resume reg resume_data (extract_keywords []) = resume_data := by
  have hempty : extract_keywords ([] : List Char) = [] := by decide
  refine ⟨fun h => ?_, fun h => ?_, hempty, ?_⟩
  · rw [optimize_resume, if_pos h]
  · by_cases h0 : job_keywords = []
    · rw [optimize_resume, if_pos h0]
    · have hsafe : filter_safe_keywords reg job_keywords = [] := by
        rw [filter_safe_keywords, List.filter_eq_nil_iff]
        intro p hp
        simp [h p hp]
      simp [optimize_resume, h0, hsafe]
  · rw [hempty, optimize_resume, if_pos rfl]

/-- Witness for C4: with the empty registry, the sample résumé passes through
unchanged both for the empty keyword map and for a map whose only keyword
fails validation. -/
theorem optimize_resume_noop_witness :
    optimize_resume emptyRegistry sampleResume [] = sampleResume
      ∧ optimize_resume emptyRegistry sampleResume [("java".data, 2)]
          = sampleResume :=
  ⟨(optimize_resume_noop emptyRegistry sampleResume []).1 rfl,
    (optimize_resume_noop emptyRegistry sampleResume
      [("java".data, 2)]).2.1 (by decide)⟩

/-- Claim C8: `optimize_resume` agrees with its input everywhere outside
`cv.summary` and `cv.sections.technologies` — erasing those two fields from
input and output yields equal documents — and it preserves the presence of
both paths, so when a path is missing the corresponding transformation is
simply skipped. -/
theorem optimize_resume_frame {α : Type} (reg : SkillRegistry)
    (resume_data : Resume α) (job_keywords : List (List Char × Nat)) :
    eraseOptimized (optimize_resume reg resume_data job_keywords)
        = eraseOptimized resume_data
      ∧ summaryPresent (optimize_resume reg resume_data job_keywords)
          = summaryPresent resume_data
      ∧ techPresent (optimize_resume reg resume_data job_keywords)
          = techPresent resume_data := by
  by_cases h0 : job_keywords = []
  · simp [optimize_resume, h0]
  · by_cases h1 : filter_safe_keywords reg job_keywords = []
    · simp [optimize_resume, h0, h1]
    · obtain ⟨cv?, rest⟩ := resume_data
      rcases cv? with _ | ⟨summary?, sections?, crest⟩
      · simp [optimize_resume, h0, h1, eraseOptimized, summaryPresent,
          techPresent]
      · rcases summary? with _ | s
        · rcases sections? with _ | ⟨tech?, srest⟩
          · simp [optimize_resume, h0, h1, eraseOptimized, summaryPresent,
              techPresent]
          · rcases tech? with _ | tech
            · simp [optimize_resume, h0, h1, eraseOptimized, summaryPresent,
                techPresent]
            · simp [optimize_resume, h0, h1, eraseOptimized, summaryPresent,
                techPresent]
        · rcases sections? with _ | ⟨tech?, srest⟩
          · simp [optimize_resume, h0, h1, eraseOptimized, summaryPresent,
              techPresent]
          · rcases tech? with _ | tech
            · simp [optimize_resume, h0, h1, eraseOptimized, summaryPresent,
                techPresent]
            · simp [optimize_resume, h0, h1, eraseOptimized, summaryPresent,
                techPresent]

/-- Scenario D item `A`. -/
def scenarioDItemA : TechItem := ⟨"A", some (.listed ["uses java".data])⟩

/-- Scenario D item `B`. -/
def scenarioDItemB : TechItem := ⟨"B", some (.listed ["uses python".data])⟩

/-- Item with the single detail `java`, for the C3 counterexample. -/
def caseItemA : TechItem := ⟨"A", some (.listed ["java".data])⟩

/-- Item with the single detail `go`, for the C3 counterexample. -/
def caseItemB : TechItem := ⟨"B", some (.listed ["go".data])⟩

/-- Claim C3 counterexample: with the upper-cased keyword `Java`, the claimed
case-insensitive scoring gives item `A` (detail `java`) score 20 and item `B`
(detail `go`) score 10, so the claimed reordering would put `A` first; the
code matches the keyword verbatim against the lower-cased detail, scores `A`
at 0, and returns `B` first. -/
theorem reorder_technologies_case_counterexample :
    reorder_technologies [caseItemA, caseItemB]
        [("Java".data, 2), ("go".data, 1)] = [caseItemB, caseItemA]
      ∧ specReorderTechnologies [caseItemA, caseItemB]
          [("Java".data, 2), ("go".data, 1)] = [caseItemA, caseItemB]
      ∧ specKeywordScore [("Java".data, 2), ("go".data, 1)] caseItemA = 20
      ∧ specKeywordScore [("Java".data, 2), ("go".data, 1)] caseItemB = 10
      ∧ keyword_score [("Java".data, 2), ("go".data, 1)] caseItemA = 0 :=
  ⟨by decide, by decide, by decide, by decide, by decide⟩

/-- Claim C3 (amended): `reorder_technologies` returns exactly the input items
stably sorted in descending order of `keyword_score`, where a keyword scores
`count × 10` per detail when it occurs verbatim as a substring of the
lower-cased detail (the keyword itself is not lower-cased): the output is a
permutation of the input, it is sorted by score descending, equal-score items
keep their original relative order, and scenario D reorders to `[B, A]`. -/
theorem reorder_technologies_stable_sort (tech_section : List TechItem)
    (matched_keywords : List (List Char × Nat)) :
    List.Perm (reorder_technologies tech_section matched_keywords) tech_section
      ∧ (reorder_technologies tech_section matched_keywords).Pairwise
          (fun a b => keyword_score matched_keywords b
            ≤ keyword_score matched_keywords a)
      ∧ (∀ l' : List TechItem, l'.Sublist tech_section →
          l'.Pairwise (fun a b => keyword_score matched_keywords a
            = keyword_score matched_keywords b) →
          l'.Sublist (reorder_technologies tech_section matched_keywords))
      ∧ reorder_technologies [scenarioDItemA, scenarioDItemB]
          [("python".data, 5), ("java".data, 1)]
          = [scenarioDItemB, scenarioDItemA] := by
  by_cases h : tech_section = []
  · subst h
    refine ⟨List.Perm.refl _, ?_, ?_, by decide⟩
    · rw [reorder_technologies]
      simp
    · intro l' hsub _
      rw [List.sublist_nil] at hsub
      subst hsub
      exact List.nil_sublist _
  · rw [reorder_technologies, if_neg h]
    refine ⟨sortDescBy_perm _ _, sortDescBy_sorted _ _, ?_, by decide⟩
    intro l' hsub heq
    exact sortDescBy_stable _ _ l' hsub heq

/-- Witness for C3 (scenario D): the reordered list is `[B, A]`, a permutation
of the input in which the singleton `[A]` is still a sublist. -/
theorem reorder_technologies_stable_sort_witness :
    reorder_technologies [scenarioDItemA, scenarioDItemB]
        [("python".data, 5), ("java".data, 1)]
        = [scenarioDItemB, scenarioDItemA]
      ∧ List.Perm (reorder_technologies [scenarioDItemA, scenarioDItemB]
          [("python".data, 5), ("java".data, 1)])
          [scenarioDItemA, scenarioDItemB]
      ∧ [scenarioDItemA].Sublist (reorder_technologies
          [scenarioDItemA, scenarioDItemB]
          [("python".data, 5), ("java".data, 1)]) :=
  ⟨(reorder_technologies_stable_sort [scenarioDItemA, scenarioDItemB]
      [("python".data, 5), ("java".data, 1)]).2.2.2,
    (reorder_technologies_stable_sort [scenarioDItemA, scenarioDItemB]
      [("python".data, 5), ("java".data, 1)]).1,
    (reorder_technologies_stable_sort [scenarioDItemA, scenarioDItemB]
      [("python".data, 5), ("java".data, 1)]).2.2.1 [scenarioDItemA]
      ((List.nil_sublist [scenarioDItemB]).cons₂ scenarioDItemA)
      (List.pairwise_singleton _ _)⟩

/-- Claim C7 counterexample: the code compares each keyword verbatim against
the lower-cased existing details, so the upper-cased keyword `Python` is not
dropped even though its lower-cased form equals the existing detail `python`;
the prepended section then duplicates that detail case-insensitively. -/
theorem add_relevant_skills_case_counterexample :
    add_relevant_skills [⟨"A", some (.listed ["python".data])⟩]
        [("Python".data, 1)]
        = [⟨jobRelevantLabel, some (.listed ["Python".data])⟩,
          ⟨"A", some (.listed ["python".data])⟩]
      ∧ "Python".data.map pyLower = "python".data.map pyLower :=
  ⟨by decide, by decide⟩

/-- Claim C7 (amended): for keyword maps whose keys are already lower-case,
`add_relevant_skills` never duplicates an existing detail case-insensitively:
either the section list is returned unchanged (in particular when no keyword
survives the duplicate filter), or the prepended `Job-Relevant Technologies`
section carries only keywords whose lower-cased form differs from the
lower-cased form of every detail already present. -/
theorem add_relevant_skills_no_duplicate (tech_section : List TechItem)
    (matched_keywords : List (List Char × Nat))
    (hlower : ∀ p ∈ matched_keywords, p.1.map pyLower = p.1) :
    add_relevant_skills tech_section matched_keywords = tech_section
      ∨ ∃ new_keywords : List (List Char),
          new_keywords ≠ []
          ∧ add_relevant_skills tech_section matched_keywords
              = ⟨jobRelevantLabel, some (.listed (new_keywords.take 6))⟩
                  :: tech_section
          ∧ ∀ d ∈ new_keywords, ∀ item ∈ tech_section,
              ∀ e ∈ detailsList item, d.map pyLower ≠ e.map pyLower := by
  by_cases h0 : matched_keywords = []
  · left
    rw [add_relevant_skills, if_pos h0]
  · rw [add_relevant_skills, if_neg h0]
    by_cases h1 :
        ((((sortDescBy (fun p : List Char × Nat => p.2)
            matched_keywords).take 8).map (fun p => p.1)).filter fun kw =>
          !(((tech_section.flatMap detailsList).map
              (fun d => d.map pyLower)).contains kw)) = []
    · left
      rw [if_neg (by simpa using h1)]
    · right
      refine ⟨_, h1, by rw [if_pos (by simpa using h1)], ?_⟩
      intro d hd item hitem e he heq
      rw [List.mem_filter] at hd
      obtain ⟨hd1, hd2⟩ := hd
      have hdlow : d.map pyLower = d := by
        rw [List.mem_map] at hd1
        obtain ⟨p, hp, rfl⟩ := hd1
        have hp' : p ∈ matched_keywords :=
          (sortDescBy_perm (fun p : List Char × Nat => p.2)
            matched_keywords).mem_iff.mp (List.take_subset 8 _ hp)
        exact hlower p hp'
      have hmem : d ∈ (tech_section.flatMap detailsList).map
          (fun d => d.map pyLower) := by
        rw [List.mem_map]
        refine ⟨e, ?_, ?_⟩
        · rw [List.mem_flatMap]
          exact ⟨item, hitem, he⟩
        · rw [← heq, hdlow]
      rw [Bool.not_eq_true'] at hd2
      have hcontains : ((tech_section.flatMap detailsList).map
          (fun d => d.map pyLower)).contains d = true :=
        List.contains_iff_exists_mem_beq.mpr ⟨d, hmem, beq_self_eq_true d⟩
      rw [hcontains] at hd2
      cases hd2

/-- Witness for C7: with the lower-case keyword `go` and an existing detail
`python`, the amended theorem applies (its hypothesis holds by evaluation) and
the prepended section cannot duplicate an existing detail. -/
theorem add_relevant_skills_no_duplicate_witness :
    add_relevant_skills [⟨"A", some (.listed ["python".data])⟩]
        [("go".data, 1)]
        = [⟨"A", some (.listed ["python".data])⟩]
      ∨ ∃ new_keywords : List (List Char),
          new_keywords ≠ []
          ∧ add_relevant_skills [⟨"A", some (.listed ["python".data])⟩]
              [("go".data, 1)]
              = ⟨jobRelevantLabel, some (.listed (new_keywords.take 6))⟩
                  :: [⟨"A", some (.listed ["python".data])⟩]
          ∧ ∀ d ∈ new_keywords,
              ∀ item ∈ [(⟨"A", some (.listed ["python".data])⟩ : TechItem)],
              ∀ e ∈ detailsList item, d.map pyLower ≠ e.map pyLower :=
  add_relevant_skills_no_duplicate [⟨"A", some (.listed ["python".data])⟩]
    [("go".data, 1)] (by decide)

end Resumata
